import Mathlib

set_option linter.unusedSectionVars false

/-!
Verification of the `zkp` toolkit (Schnorr-style constraint-system prover
over an abstract prime-order group) against its specification.

The embedding follows `src/toolbox/prover.rs` and `src/util.rs`.  The group
is modelled as an additive commutative group `G` that is a module over the
scalar ring `F`; the transcript (the external `merlin`-style oracle) is
modelled as an explicit list of appended entries together with an abstract
challenge function, and the transcript RNG as the explicit data it is built
from (base transcript, rekey list, external entropy bytes) together with an
abstract draw function.  The single-instance verifier is not part of the
source tree (only its callers are), so `Verifier.verify_compact` is modelled
from the specification, section 4.D.
-/

/-- A secret variable handle: dense index into the scalar table
(`ScalarVar(usize)` in the source). -/
structure ScalarVar where
  i : Nat
deriving DecidableEq, Repr

/-- A public variable handle: dense index into the point table
(`PointVar(usize)` in the source). -/
structure PointVar where
  i : Nat
deriving DecidableEq, Repr

/-- One labeled message absorbed by the transcript.  The constructors mirror
the derived transcript operations of the spec, section 4.A: domain
separation, scalar-variable binding (`"scvar"`, label only), point-variable
binding (`"ptvar"`, label and encoding) and blinding-commitment binding
(`"blindcom"`, label and encoding). -/
inductive Entry (G : Type) where
  | domainSep (label : String)
  | scalarVar (label : String)
  | pointVar (label : String) (p : G)
  | blindingCommitment (label : String) (p : G)
deriving DecidableEq, Repr

/-- The transcript RNG builder: the transcript state captured by
`build_rng()` plus the accumulated `rekey_with_witness_bytes` calls, each a
pair (label, witness bytes). -/
structure RngBuilder (G : Type) where
  base : List (Entry G)
  rekeys : List (String × List Nat)
deriving DecidableEq

/-- The finalized transcript RNG: the builder data plus the byte stream of
the external OS-entropy RNG passed to `finalize`. -/
structure TranscriptRng (G : Type) where
  builder : RngBuilder G
  ext : List Nat
deriving DecidableEq

/-- `transcript.build_rng()`: capture the transcript state, no rekeys yet. -/
def buildRng {G : Type} (t : List (Entry G)) : RngBuilder G :=
  ⟨t, []⟩

/-- `rekey_with_witness_bytes(label, bytes)`: append one rekey record. -/
def rekeyWithWitnessBytes {G : Type} (b : RngBuilder G) (label : String)
    (bytes : List Nat) : RngBuilder G :=
  ⟨b.base, b.rekeys ++ [(label, bytes)]⟩

/-- `finalize(external_rng)`: pair the builder with the external entropy. -/
def finalizeRng {G : Type} (b : RngBuilder G) (ext : List Nat) : TranscriptRng G :=
  ⟨b, ext⟩

/-- The abstract transcript/RNG oracle the engine consumes: the canonical
byte encoding of a scalar (`to_repr`), the deterministic scalar draw of a
finalized transcript RNG (`Scalar::random`, indexed by draw count), and the
challenge squeeze (`get_challenge`) as a function of the transcript state
and the challenge label. -/
structure Oracle (F G : Type) where
  toBytes : F → List Nat
  draw : TranscriptRng G → Nat → F
  chal : List (Entry G) → String → F

/-- A compact proof: the challenge and the responses
(`CompactProof { challenge, responses }`). -/
structure CompactProof (F : Type) where
  challenge : F
  responses : List F
deriving DecidableEq, Repr

/-- The prover state, mirroring `struct Prover` in
`src/toolbox/prover.rs`: transcript, scalar assignments, point assignments,
point labels, recorded constraints. -/
structure Prover (F G : Type) where
  transcript : List (Entry G)
  scalars : List F
  points : List G
  pointLabels : List String
  constraints : List (PointVar × List (ScalarVar × PointVar))
deriving DecidableEq

/-- `Prover::new(proof_label, transcript)`: domain-separate the transcript,
start with empty tables. -/
def Prover.new {F G : Type} (proofLabel : String) (t : List (Entry G)) :
    Prover F G :=
  ⟨t ++ [Entry.domainSep proofLabel], [], [], [], []⟩

/-- `Prover::allocate_scalar(label, assignment)`: append `("scvar", label)`
to the transcript, push the assignment, return the dense index (the length
after the push, minus one). -/
def Prover.allocate_scalar {F G : Type} (s : Prover F G) (label : String)
    (assignment : F) : ScalarVar × Prover F G :=
  (⟨s.scalars.length⟩,
   { s with
     transcript := s.transcript ++ [Entry.scalarVar label],
     scalars := s.scalars ++ [assignment] })

/-- `Prover::allocate_point(label, assignment)`: append
`("ptvar", label, assignment)` to the transcript, push the point and its
label, return the handle together with the same point. -/
def Prover.allocate_point {F G : Type} (s : Prover F G) (label : String)
    (assignment : G) : (PointVar × G) × Prover F G :=
  ((⟨s.points.length⟩, assignment),
   { s with
     transcript := s.transcript ++ [Entry.pointVar label assignment],
     points := s.points ++ [assignment],
     pointLabels := s.pointLabels ++ [label] })

/-- `Prover::constrain(lhs, linear_combination)` (the `SchnorrCS` impl):
push the constraint, touch nothing else. -/
def Prover.constrain {F G : Type} (s : Prover F G) (lhs : PointVar)
    (linearCombination : List (ScalarVar × PointVar)) : Prover F G :=
  { s with constraints := s.constraints ++ [(lhs, linearCombination)] }

section ProveImpl

variable {F G : Type} [CommRing F] [AddCommGroup G] [Module F G]

/-- The transcript RNG built in `prove_impl`: `build_rng()`, then
`rekey_with_witness_bytes(b"", scalar.to_repr())` for every allocated
scalar in allocation order, then `finalize(&mut thread_rng())`. -/
def Prover.proverRng (O : Oracle F G) (s : Prover F G) (ext : List Nat) :
    TranscriptRng G :=
  finalizeRng
    (s.scalars.foldl (fun b x => rekeyWithWitnessBytes b "" (O.toBytes x))
      (buildRng s.transcript))
    ext

/-- The blinding factors drawn in `prove_impl`: one uniform draw from the
transcript RNG per allocated scalar, in allocation order. -/
def Prover.blindingsOf (O : Oracle F G) (s : Prover F G) (ext : List Nat) :
    List F :=
  (List.range s.scalars.length).map (O.draw (s.proverRng O ext))

/-- The per-constraint commitment accumulation of `prove_impl`: start from
the identity, add `blindings[sc_var] * points[pt_var]` for each rhs term,
then subtract the identity (the no-op present in the source). -/
def commitmentFor (points : List G) (blindings : List F)
    (rhs : List (ScalarVar × PointVar)) : G :=
  (rhs.foldl
    (fun acc sp => acc + blindings.getD sp.1.i 0 • points.getD sp.2.i 0)
    0) - 0

/-- The commitment loop of `prove_impl`: for each constraint in insertion
order, compute the commitment, append the `("blindcom", label_of(lhs), T)`
entry to the transcript, and push the commitment. -/
def commitLoop (points : List G) (labels : List String) (blindings : List F) :
    List (PointVar × List (ScalarVar × PointVar)) → List (Entry G) → List G →
    List (Entry G) × List G
  | [], t, cs => (t, cs)
  | (lhs, rhs) :: rest, t, cs =>
      commitLoop points labels blindings rest
        (t ++ [Entry.blindingCommitment (labels.getD lhs.i "")
                 (commitmentFor points blindings rhs)])
        (cs ++ [commitmentFor points blindings rhs])

/-- The transcript state and collected commitments after the commitment
loop of `prove_impl`. -/
def Prover.proveState (O : Oracle F G) (s : Prover F G) (ext : List Nat) :
    List (Entry G) × List G :=
  commitLoop s.points s.pointLabels (s.blindingsOf O ext) s.constraints
    s.transcript []

/-- The challenge squeezed in `prove_impl`:
`get_challenge(b"chal")` on the transcript after the commitment loop. -/
def Prover.challengeOf (O : Oracle F G) (s : Prover F G) (ext : List Nat) : F :=
  O.chal (s.proveState O ext).1 "chal"

/-- The responses of `prove_impl`: zip scalars with blindings in allocation
order and compute `b + s * challenge` for each pair. -/
def Prover.responsesOf (O : Oracle F G) (s : Prover F G) (ext : List Nat) :
    List F :=
  (s.scalars.zip (s.blindingsOf O ext)).map
    (fun sb => sb.2 + sb.1 * s.challengeOf O ext)

/-- `Prover::prove_impl`: the challenge, the responses and the collected
commitments. -/
def Prover.prove_impl (O : Oracle F G) (s : Prover F G) (ext : List Nat) :
    F × List F × List G :=
  (s.challengeOf O ext, s.responsesOf O ext, (s.proveState O ext).2)

/-- `Prover::prove_compact`: consume the prover, keep the challenge and the
responses. -/
def Prover.prove_compact (O : Oracle F G) (s : Prover F G) (ext : List Nat) :
    CompactProof F :=
  ⟨(s.prove_impl O ext).1, (s.prove_impl O ext).2.1⟩

end ProveImpl

/-- The closed error set of the driver functions (spec, sections 6 and 7). -/
inductive ProofError where
  | pointMalformed
  | verificationFailure
  | lengthMismatch
  | internalArithmetic
deriving DecidableEq, Repr

/-- Modelled from the spec: the single-instance verifier state
(`VerifierState` is not under `src/`; spec, section 3: "same shape as
ProverState but the scalar table has no values, only labels"). -/
structure Verifier (F G : Type) where
  transcript : List (Entry G)
  scalarLabels : List String
  points : List G
  pointLabels : List String
  constraints : List (PointVar × List (ScalarVar × PointVar))
deriving DecidableEq

/-- Modelled from the spec: `Verifier::new(proof_label, transcript)`
domain-separates the transcript and returns the empty state (spec,
sections 4.C/4.D: operations mirror the prover). -/
def Verifier.new {F G : Type} (proofLabel : String) (t : List (Entry G)) :
    Verifier F G :=
  ⟨t ++ [Entry.domainSep proofLabel], [], [], [], []⟩

/-- Modelled from the spec: `Verifier::allocate_scalar(label)` appends
`("scvar", label)` to the transcript — identically to the prover, which
appends only the label, never the value — and records the label. -/
def Verifier.allocate_scalar {F G : Type} (v : Verifier F G) (label : String) :
    ScalarVar × Verifier F G :=
  (⟨v.scalarLabels.length⟩,
   { v with
     transcript := v.transcript ++ [Entry.scalarVar label],
     scalarLabels := v.scalarLabels ++ [label] })

/-- Modelled from the spec: `Verifier::allocate_point(label, value)` appends
to the transcript identically to the prover and records the labeled point.
Points of the model are group elements, so the `PointMalformed` decoding
branch of the spec cannot fire here. -/
def Verifier.allocate_point {F G : Type} (v : Verifier F G) (label : String)
    (assignment : G) : (PointVar × Verifier F G) :=
  (⟨v.points.length⟩,
   { v with
     transcript := v.transcript ++ [Entry.pointVar label assignment],
     points := v.points ++ [assignment],
     pointLabels := v.pointLabels ++ [label] })

/-- Modelled from the spec: the verifier's `constrain` records the equation
exactly as the prover's does. -/
def Verifier.constrain {F G : Type} (v : Verifier F G) (lhs : PointVar)
    (linearCombination : List (ScalarVar × PointVar)) : Verifier F G :=
  { v with constraints := v.constraints ++ [(lhs, linearCombination)] }

section VerifyImpl

variable {F G : Type} [CommRing F] [AddCommGroup G] [Module F G]

/-- Modelled from the spec, section 4.D: the commitment the verifier
recomputes for one constraint of a compact proof:
`(Σ Qᵢⱼ with scalars = rⱼ) − c · P_lhs`. -/
def verifyCommitmentFor (points : List G) (responses : List F)
    (challenge : F) (lhs : PointVar) (rhs : List (ScalarVar × PointVar)) : G :=
  (rhs.foldl
    (fun acc sp => acc + responses.getD sp.1.i 0 • points.getD sp.2.i 0)
    0) - challenge • points.getD lhs.i 0

/-- Modelled from the spec, section 4.D: the verifier's recomputation loop
for a compact proof; for each constraint in order it appends
`("blindcom", label_of(lhs), recomputed T)` to the transcript. -/
def verifyCommitLoop (points : List G) (labels : List String)
    (responses : List F) (challenge : F) :
    List (PointVar × List (ScalarVar × PointVar)) → List (Entry G) →
    List (Entry G)
  | [], t => t
  | (lhs, rhs) :: rest, t =>
      verifyCommitLoop points labels responses challenge rest
        (t ++ [Entry.blindingCommitment (labels.getD lhs.i "")
                 (verifyCommitmentFor points responses challenge lhs rhs)])

/-- Modelled from the spec, section 4.D: `Verifier::verify_compact` — replay
the recomputed commitments into the transcript, squeeze the challenge and
accept exactly when it equals the stored one; reject with
`VerificationFailure` otherwise. -/
def Verifier.verify_compact [DecidableEq F] (O : Oracle F G)
    (v : Verifier F G) (proof : CompactProof F) : Except ProofError Unit :=
  let t := verifyCommitLoop v.points v.pointLabels proof.responses
    proof.challenge v.constraints v.transcript
  if O.chal t "chal" = proof.challenge then Except.ok ()
  else Except.error ProofError.verificationFailure

end VerifyImpl

/-- One public-API call on a constraint system: allocate a scalar (with its
prover-side assignment, which a verifier ignores), allocate a point, or
record a constraint.  A prover and a verifier driven by the same operation
list perform matching allocations: same labels, same order, same points. -/
inductive CSOp (F G : Type) where
  | allocScalar (label : String) (x : F)
  | allocPoint (label : String) (p : G)
  | addConstraint (lhs : PointVar) (rhs : List (ScalarVar × PointVar))
deriving DecidableEq

/-- Apply one API call to a prover state. -/
def Prover.applyOp {F G : Type} (s : Prover F G) : CSOp F G → Prover F G
  | CSOp.allocScalar label x => (s.allocate_scalar label x).2
  | CSOp.allocPoint label p => (s.allocate_point label p).2
  | CSOp.addConstraint lhs rhs => s.constrain lhs rhs

/-- Run a list of API calls on a prover state. -/
def Prover.runOps {F G : Type} (s : Prover F G) (ops : List (CSOp F G)) :
    Prover F G :=
  ops.foldl Prover.applyOp s

/-- Apply one API call to a verifier state; the scalar assignment carried by
`allocScalar` is ignored (the verifier has no witness values). -/
def Verifier.applyOp {F G : Type} (v : Verifier F G) : CSOp F G → Verifier F G
  | CSOp.allocScalar label _ => (v.allocate_scalar label).2
  | CSOp.allocPoint label p => (v.allocate_point label p).2
  | CSOp.addConstraint lhs rhs => v.constrain lhs rhs

/-- Run a list of API calls on a verifier state. -/
def Verifier.runOps {F G : Type} (v : Verifier F G) (ops : List (CSOp F G)) :
    Verifier F G :=
  ops.foldl Verifier.applyOp v

/-- The matrix of `src/util.rs`: row and column counts with flat row-major
storage (`entries: Vec<T>`). -/
structure Util.Matrix (T : Type) where
  rows : Nat
  cols : Nat
  entries : List T
deriving DecidableEq

/-- `Matrix::new(rows, cols)`: `rows * cols` default entries. -/
def Util.Matrix.new (T : Type) [Inhabited T] (rows cols : Nat) : Util.Matrix T :=
  ⟨rows, cols, List.replicate (rows * cols) default⟩

/-- The `Index` impl: read the flat entry at `cols * i + j`; `none` models
the out-of-bounds panic of `Vec` indexing. -/
def Util.Matrix.index {T : Type} (m : Util.Matrix T) (ij : Nat × Nat) : Option T :=
  m.entries.get? (m.cols * ij.1 + ij.2)

/-- The `IndexMut` impl: write the flat entry at `cols * i + j`; `none`
models the out-of-bounds panic of `Vec` indexing. -/
def Util.Matrix.index_mut {T : Type} (m : Util.Matrix T) (ij : Nat × Nat) (v : T) :
    Option (Util.Matrix T) :=
  if m.cols * ij.1 + ij.2 < m.entries.length then
    some ⟨m.rows, m.cols, m.entries.set (m.cols * ij.1 + ij.2) v⟩
  else none

/-- The order of the BLS12-381 scalar field `Fr` (the modulus of
`bls12_381::Scalar`). -/
def blsR : Nat :=
  52435875175126190479447740508185965837690552500527637822603658699938581184513

/-- `bls12_381::Scalar`, modelled as the integers modulo the group order. -/
def BlsScalar : Type := ZMod blsR

instance : DecidableEq BlsScalar := by
  unfold BlsScalar
  infer_instance

/-- The little-endian value of a byte string. -/
def leNat : List Nat → Nat
  | [] => 0
  | b :: rest => b % 256 + 256 * leNat rest

/-- `Scalar::from_bytes_wide`: interpret 64 little-endian bytes as a
512-bit integer and reduce it modulo the group order. -/
def from_bytes_wide (buf : List Nat) : BlsScalar :=
  ((leNat buf : Nat) : ZMod blsR)

/-- `rand_scalar` from `src/util.rs`: fill a 64-byte buffer from the RNG
(modelled as the byte stream `rng`) and reduce it wide.  The buffer is
`[0; 64]` filled by `fill_bytes`, so its contents are the first 64 stream
bytes. -/
def rand_scalar (rng : Nat → Nat) : BlsScalar :=
  from_bytes_wide ((List.range 64).map rng)

/-- Modelled from the spec: `get_challenge(label)` of the transcript
protocol (not under `src/`) squeezes challenge bytes and reduces them wide
(2·W_s = 64 bytes) to the scalar field, per the normative requirement of
spec sections 6 and 9.  `squeeze` is the byte stream produced by
`challenge_bytes`. -/
def get_challenge (squeeze : Nat → Nat) : BlsScalar :=
  from_bytes_wide ((List.range 64).map squeeze)

/-- A concrete transcript/RNG oracle over `F = G = ℤ`, used to evaluate the
engine on closed inputs: scalars serialize to a single byte, the i-th
blinding draw is `i + 1`, and the challenge is the transcript length. -/
def intOracle : Oracle ℤ ℤ :=
  ⟨fun z => [z.natAbs % 256], fun _ i => (i : ℤ) + 1, fun t _ => (t.length : ℤ)⟩

section Helpers

variable {F G : Type} [CommRing F] [AddCommGroup G] [Module F G]

lemma foldl_add_eq_sum {α : Type} (g : α → G) :
    ∀ (l : List α) (a : G),
      l.foldl (fun acc e => acc + g e) a = a + (l.map g).sum
  | [], a => by simp
  | e :: rest, a => by
      simp only [List.foldl_cons, List.map_cons, List.sum_cons]
      rw [foldl_add_eq_sum g rest (a + g e), add_assoc]

lemma sum_map_add_distrib {α : Type} (f g : α → G) :
    ∀ (l : List α),
      (l.map (fun e => f e + g e)).sum = (l.map f).sum + (l.map g).sum
  | [] => by simp
  | e :: rest => by
      simp only [List.map_cons, List.sum_cons, sum_map_add_distrib f g rest]
      abel

lemma sum_map_smul {α : Type} (c : F) (f : α → G) :
    ∀ (l : List α), (l.map (fun e => c • f e)).sum = c • (l.map f).sum
  | [] => by simp
  | e :: rest => by
      simp only [List.map_cons, List.sum_cons, sum_map_smul c f rest, smul_add]

lemma commitmentFor_eq_sum (points : List G) (blindings : List F)
    (rhs : List (ScalarVar × PointVar)) :
    commitmentFor points blindings rhs =
      (rhs.map (fun sp => blindings.getD sp.1.i 0 • points.getD sp.2.i 0)).sum := by
  unfold commitmentFor
  rw [foldl_add_eq_sum]
  simp

lemma verifyCommitmentFor_eq_sum (points : List G) (responses : List F)
    (challenge : F) (lhs : PointVar) (rhs : List (ScalarVar × PointVar)) :
    verifyCommitmentFor points responses challenge lhs rhs =
      (rhs.map (fun sp => responses.getD sp.1.i 0 • points.getD sp.2.i 0)).sum
        - challenge • points.getD lhs.i 0 := by
  unfold verifyCommitmentFor
  rw [foldl_add_eq_sum]
  simp

lemma commitLoop_eq (points : List G) (labels : List String)
    (blindings : List F) :
    ∀ (cs : List (PointVar × List (ScalarVar × PointVar)))
      (t : List (Entry G)) (acc : List G),
      commitLoop points labels blindings cs t acc =
        (t ++ cs.map (fun c => Entry.blindingCommitment (labels.getD c.1.i "")
                 (commitmentFor points blindings c.2)),
         acc ++ cs.map (fun c => commitmentFor points blindings c.2))
  | [], t, acc => by simp [commitLoop]
  | (lhs, rhs) :: rest, t, acc => by
      simp only [commitLoop, List.map_cons]
      rw [commitLoop_eq points labels blindings rest]
      simp

lemma verifyCommitLoop_eq (points : List G) (labels : List String)
    (responses : List F) (challenge : F) :
    ∀ (cs : List (PointVar × List (ScalarVar × PointVar)))
      (t : List (Entry G)),
      verifyCommitLoop points labels responses challenge cs t =
        t ++ cs.map (fun c => Entry.blindingCommitment (labels.getD c.1.i "")
               (verifyCommitmentFor points responses challenge c.1 c.2))
  | [], t => by simp [verifyCommitLoop]
  | (lhs, rhs) :: rest, t => by
      simp only [verifyCommitLoop, List.map_cons]
      rw [verifyCommitLoop_eq points labels responses challenge rest]
      simp

lemma zip_map_response_getD (c : F) :
    ∀ (a b : List F), a.length = b.length → ∀ (i : Nat),
      ((a.zip b).map (fun sb => sb.2 + sb.1 * c)).getD i 0 =
        b.getD i 0 + a.getD i 0 * c
  | [], [], _, i => by simp
  | [], b :: bs, h, i => by simp at h
  | a :: as, [], h, i => by simp at h
  | a :: as, b :: bs, h, 0 => by simp
  | a :: as, b :: bs, h, (i + 1) => by
      simp only [List.zip_cons_cons, List.map_cons, List.getD_cons_succ]
      exact zip_map_response_getD c as bs (by simpa using h) i

lemma blindingsOf_length (O : Oracle F G) (s : Prover F G) (ext : List Nat) :
    (s.blindingsOf O ext).length = s.scalars.length := by
  simp [Prover.blindingsOf]

lemma responsesOf_length (O : Oracle F G) (s : Prover F G) (ext : List Nat) :
    (s.responsesOf O ext).length = s.scalars.length := by
  simp [Prover.responsesOf, blindingsOf_length]

lemma responsesOf_getD (O : Oracle F G) (s : Prover F G) (ext : List Nat)
    (i : Nat) :
    (s.responsesOf O ext).getD i 0 =
      (s.blindingsOf O ext).getD i 0 +
        s.scalars.getD i 0 * s.challengeOf O ext := by
  unfold Prover.responsesOf
  exact zip_map_response_getD _ s.scalars (s.blindingsOf O ext)
    (blindingsOf_length O s ext).symm i

lemma verify_recomputes_commitment (points : List G) (x bl responses : List F)
    (challenge : F) (lhs : PointVar) (rhs : List (ScalarVar × PointVar))
    (hresp : ∀ k, responses.getD k 0 = bl.getD k 0 + x.getD k 0 * challenge)
    (honest : points.getD lhs.i 0 =
      (rhs.map (fun sp => x.getD sp.1.i 0 • points.getD sp.2.i 0)).sum) :
    verifyCommitmentFor points responses challenge lhs rhs =
      commitmentFor points bl rhs := by
  rw [verifyCommitmentFor_eq_sum, commitmentFor_eq_sum, honest]
  have hmap : rhs.map (fun sp => responses.getD sp.1.i 0 • points.getD sp.2.i 0)
      = rhs.map (fun sp => bl.getD sp.1.i 0 • points.getD sp.2.i 0
          + challenge • (x.getD sp.1.i 0 • points.getD sp.2.i 0)) := by
    apply List.map_congr_left
    intro sp _
    rw [hresp sp.1.i, add_smul, mul_comm, mul_smul]
  rw [hmap, sum_map_add_distrib, sum_map_smul]
  abel

lemma applyOp_agree (p : Prover F G) (v : Verifier F G) (op : CSOp F G)
    (h1 : p.transcript = v.transcript) (h2 : p.points = v.points)
    (h3 : p.pointLabels = v.pointLabels) (h4 : p.constraints = v.constraints) :
    (p.applyOp op).transcript = (v.applyOp op).transcript ∧
    (p.applyOp op).points = (v.applyOp op).points ∧
    (p.applyOp op).pointLabels = (v.applyOp op).pointLabels ∧
    (p.applyOp op).constraints = (v.applyOp op).constraints := by
  cases op <;>
    simp [Prover.applyOp, Verifier.applyOp, Prover.allocate_scalar,
      Verifier.allocate_scalar, Prover.allocate_point, Verifier.allocate_point,
      Prover.constrain, Verifier.constrain, h1, h2, h3, h4]

lemma runOps_agree :
    ∀ (ops : List (CSOp F G)) (p : Prover F G) (v : Verifier F G),
      p.transcript = v.transcript → p.points = v.points →
      p.pointLabels = v.pointLabels → p.constraints = v.constraints →
      (p.runOps ops).transcript = (v.runOps ops).transcript ∧
      (p.runOps ops).points = (v.runOps ops).points ∧
      (p.runOps ops).pointLabels = (v.runOps ops).pointLabels ∧
      (p.runOps ops).constraints = (v.runOps ops).constraints
  | [], p, v, h1, h2, h3, h4 => ⟨h1, h2, h3, h4⟩
  | op :: rest, p, v, h1, h2, h3, h4 => by
      have step := applyOp_agree p v op h1 h2 h3 h4
      simpa [Prover.runOps, Verifier.runOps] using
        runOps_agree rest (p.applyOp op) (v.applyOp op)
          step.1 step.2.1 step.2.2.1 step.2.2.2

omit [CommRing F] [AddCommGroup G] [Module F G] in
lemma prover_runOps_constraints_nonempty :
    ∀ (ops : List (CSOp F G)) (s : Prover F G),
      (∀ lhs rhs, CSOp.addConstraint lhs rhs ∈ ops → rhs ≠ []) →
      (∀ c ∈ s.constraints, c.2 ≠ []) →
      ∀ c ∈ (s.runOps ops).constraints, c.2 ≠ []
  | [], s, _, hs => hs
  | op :: rest, s, hops, hs => by
      have hrest : ∀ lhs rhs, CSOp.addConstraint lhs rhs ∈ rest → rhs ≠ [] :=
        fun lhs rhs hmem => hops lhs rhs (List.mem_cons_of_mem op hmem)
      have hstep : ∀ c ∈ (s.applyOp op).constraints, c.2 ≠ [] := by
        cases op with
        | allocScalar label x =>
            simpa [Prover.applyOp, Prover.allocate_scalar] using hs
        | allocPoint label p =>
            simpa [Prover.applyOp, Prover.allocate_point] using hs
        | addConstraint lhs rhs =>
            intro c hc
            simp only [Prover.applyOp, Prover.constrain, List.mem_append,
              List.mem_singleton] at hc
            rcases hc with hc | hc
            · exact hs c hc
            · subst hc
              exact hops lhs rhs (List.mem_cons_self _ _)
      simpa [Prover.runOps] using
        prover_runOps_constraints_nonempty rest (s.applyOp op) hrest hstep

omit [CommRing F] [AddCommGroup G] [Module F G] in
lemma verifier_runOps_constraints_nonempty :
    ∀ (ops : List (CSOp F G)) (v : Verifier F G),
      (∀ lhs rhs, CSOp.addConstraint lhs rhs ∈ ops → rhs ≠ []) →
      (∀ c ∈ v.constraints, c.2 ≠ []) →
      ∀ c ∈ (v.runOps ops).constraints, c.2 ≠ []
  | [], v, _, hv => hv
  | op :: rest, v, hops, hv => by
      have hrest : ∀ lhs rhs, CSOp.addConstraint lhs rhs ∈ rest → rhs ≠ [] :=
        fun lhs rhs hmem => hops lhs rhs (List.mem_cons_of_mem op hmem)
      have hstep : ∀ c ∈ (v.applyOp op).constraints, c.2 ≠ [] := by
        cases op with
        | allocScalar label x =>
            simpa [Verifier.applyOp, Verifier.allocate_scalar] using hv
        | allocPoint label p =>
            simpa [Verifier.applyOp, Verifier.allocate_point] using hv
        | addConstraint lhs rhs =>
            intro c hc
            simp only [Verifier.applyOp, Verifier.constrain, List.mem_append,
              List.mem_singleton] at hc
            rcases hc with hc | hc
            · exact hv c hc
            · subst hc
              exact hops lhs rhs (List.mem_cons_self _ _)
      simpa [Verifier.runOps] using
        verifier_runOps_constraints_nonempty rest (v.applyOp op) hrest hstep

end Helpers

/-- C7: frame property of `constrain` — for every prover state,
`constrain(lhs, rhs)` appends the equation to the constraint list and
changes nothing else: the transcript receives no bytes and the scalar
table, point table and point labels are unchanged. -/
theorem C7_constrain_frame {F G : Type} (s : Prover F G) (lhs : PointVar)
    (rhs : List (ScalarVar × PointVar)) :
    (s.constrain lhs rhs).transcript = s.transcript ∧
    (s.constrain lhs rhs).scalars = s.scalars ∧
    (s.constrain lhs rhs).points = s.points ∧
    (s.constrain lhs rhs).pointLabels = s.pointLabels ∧
    (s.constrain lhs rhs).constraints = s.constraints ++ [(lhs, rhs)] :=
  ⟨rfl, rfl, rfl, rfl, rfl⟩

/-- C2: response computation — after the challenge `c` is squeezed, the
prover computes, for every allocated scalar `xᵢ` with blinding `bᵢ`, the
response `rᵢ = bᵢ + c·xᵢ` in the scalar field, and the responses appear in
the proof in scalar allocation order (the i-th response is computed from
the i-th allocated scalar), one per scalar. -/
theorem C2_response_computation {F G : Type} [CommRing F] [AddCommGroup G]
    [Module F G] (O : Oracle F G) (s : Prover F G) (ext : List Nat) :
    (s.prove_impl O ext).2.1.length = s.scalars.length ∧
    ∀ i, i < s.scalars.length →
      (s.prove_impl O ext).2.1.getD i 0 =
        (s.blindingsOf O ext).getD i 0 +
          s.challengeOf O ext * s.scalars.getD i 0 := by
  constructor
  · exact responsesOf_length O s ext
  · intro i _
    rw [show (s.prove_impl O ext).2.1 = s.responsesOf O ext from rfl,
      responsesOf_getD, mul_comm]

/-- C3: commitment computation — for each recorded constraint `(lhs, rhs)`
taken in insertion order, the prover computes the commitment equal to the
group sum `Σ b_s • Q` over the rhs terms (the identity-element subtraction
present in the accumulation path changes nothing: the accumulated value
equals the plain sum for every blinding table and rhs), appends
`("blindcom", label_of(lhs), Tᵢ)` to the transcript, and collects the `Tᵢ`
in constraint order. -/
theorem C3_commitment_computation {F G : Type} [CommRing F] [AddCommGroup G]
    [Module F G] (O : Oracle F G) (s : Prover F G) (ext : List Nat) :
    (∀ (blindings : List F) (rhs : List (ScalarVar × PointVar)),
      commitmentFor s.points blindings rhs =
        (rhs.map
          (fun sp => blindings.getD sp.1.i 0 • s.points.getD sp.2.i 0)).sum) ∧
    (s.proveState O ext).1 =
      s.transcript ++ s.constraints.map (fun c =>
        Entry.blindingCommitment (s.pointLabels.getD c.1.i "")
          (commitmentFor s.points (s.blindingsOf O ext) c.2)) ∧
    (s.proveState O ext).2 =
      s.constraints.map
        (fun c => commitmentFor s.points (s.blindingsOf O ext) c.2) := by
  refine ⟨fun bl rhs => commitmentFor_eq_sum _ _ _, ?_, ?_⟩
  · unfold Prover.proveState
    rw [commitLoop_eq]
  · unfold Prover.proveState
    rw [commitLoop_eq]
    simp

/-- C5: the part of the claim the source supports — `prove_compact`
consumes the prover and returns the challenge together with exactly one
response per allocated scalar, and the shared `prove_impl` skeleton
collects exactly one commitment per recorded constraint.  The batchable
encoding (`prove_batchable`) is absent: lines 136–144 of
`src/toolbox/prover.rs` are commented out, although the module's own doc
comment and the repository tests refer to it. -/
theorem C5_prove_compact_shape {F G : Type} [CommRing F] [AddCommGroup G]
    [Module F G] (O : Oracle F G) (s : Prover F G) (ext : List Nat) :
    (s.prove_compact O ext).challenge = s.challengeOf O ext ∧
    (s.prove_compact O ext).responses.length = s.scalars.length ∧
    (s.prove_impl O ext).2.2.length = s.constraints.length := by
  refine ⟨rfl, responsesOf_length O s ext, ?_⟩
  show (s.proveState O ext).2.length = _
  unfold Prover.proveState
  rw [commitLoop_eq]
  simp

lemma rekey_foldl {F G : Type} (O : Oracle F G) :
    ∀ (xs : List F) (b : RngBuilder G),
      xs.foldl (fun b x => rekeyWithWitnessBytes b "" (O.toBytes x)) b =
        ⟨b.base, b.rekeys ++ xs.map (fun x => ("", O.toBytes x))⟩
  | [], b => by simp
  | x :: rest, b => by
      simp only [List.foldl_cons, List.map_cons]
      rw [rekey_foldl O rest]
      simp [rekeyWithWitnessBytes]

/-- C4: deterministic-with-entropy nonce derivation — the proving RNG is
the transcript RNG rekeyed with `(label = "", witness bytes)` for every
allocated scalar in allocation order and finalized with the external
entropy stream; consequently two prover runs over identical transcript
state, identical witness scalars and an identical external RNG byte stream
produce identical blindings, and (for identical statements) identical
proofs. -/
theorem C4_deterministic_nonces {F G : Type} [CommRing F] [AddCommGroup G]
    [Module F G] (O : Oracle F G) (s s2 : Prover F G) (ext ext2 : List Nat) :
    s.proverRng O ext =
      ⟨⟨s.transcript, s.scalars.map (fun x => ("", O.toBytes x))⟩, ext⟩ ∧
    (s.transcript = s2.transcript → s.scalars = s2.scalars → ext = ext2 →
      s.blindingsOf O ext = s2.blindingsOf O ext2) ∧
    (s.transcript = s2.transcript → s.scalars = s2.scalars →
      s.points = s2.points → s.pointLabels = s2.pointLabels →
      s.constraints = s2.constraints → ext = ext2 →
      s.prove_compact O ext = s2.prove_compact O ext2) := by
  refine ⟨?_, ?_, ?_⟩
  · unfold Prover.proverRng
    rw [rekey_foldl]
    rfl
  · intro h1 h2 h3
    unfold Prover.blindingsOf Prover.proverRng buildRng
    rw [h1, h2, h3]
  · intro h1 h2 h3 h4 h5 h6
    have hs : s = s2 := by
      cases s
      cases s2
      simp_all
    rw [hs, h6]

/-- C1: completeness of the compact proof round trip — for every honest
witness satisfying the public instance (each constrained point equals the
linear combination of the allocated points under the witness scalars), and
for verifier allocations that match the prover's labels and allocation
order under the same domain label (both sides are driven by the same
operation list over the same initial transcript), `verify_compact` applied
to the proof produced by `prove_compact` returns `Ok`, for every transcript
oracle and external entropy stream. -/
theorem C1_compact_round_trip_completeness {F G : Type} [CommRing F]
    [AddCommGroup G] [Module F G] [DecidableEq F] (O : Oracle F G)
    (L : String) (t0 : List (Entry G)) (ops : List (CSOp F G))
    (ext : List Nat)
    (honest : ∀ c ∈ (Prover.runOps (Prover.new L t0) ops).constraints,
      (Prover.runOps (Prover.new L t0) ops).points.getD c.1.i 0 =
        (c.2.map (fun sp =>
          (Prover.runOps (Prover.new L t0) ops).scalars.getD sp.1.i 0 •
            (Prover.runOps (Prover.new L t0) ops).points.getD sp.2.i 0)).sum) :
    Verifier.verify_compact O (Verifier.runOps (Verifier.new L t0) ops)
      (Prover.prove_compact O (Prover.runOps (Prover.new L t0) ops) ext) =
      Except.ok () := by
  obtain ⟨ht, hpts, hlbl, hcons⟩ :=
    runOps_agree ops (Prover.new L t0) (Verifier.new L t0) rfl rfl rfl rfl
  set p := Prover.runOps (Prover.new L t0) ops
  set v := Verifier.runOps (Verifier.new L t0) ops
  have key : v.constraints.map (fun c =>
      Entry.blindingCommitment (v.pointLabels.getD c.1.i "")
        (verifyCommitmentFor v.points
          (Prover.prove_compact O p ext).responses
          (Prover.prove_compact O p ext).challenge c.1 c.2)) =
      p.constraints.map (fun c =>
        Entry.blindingCommitment (p.pointLabels.getD c.1.i "")
          (commitmentFor p.points (p.blindingsOf O ext) c.2)) := by
    rw [← hcons, ← hpts, ← hlbl]
    apply List.map_congr_left
    intro c hc
    congr 1
    exact verify_recomputes_commitment p.points p.scalars (p.blindingsOf O ext)
      (p.responsesOf O ext) (p.challengeOf O ext) c.1 c.2
      (fun k => responsesOf_getD O p ext k) (honest c hc)
  have hcond : O.chal (verifyCommitLoop v.points v.pointLabels
      (Prover.prove_compact O p ext).responses
      (Prover.prove_compact O p ext).challenge v.constraints v.transcript)
      "chal" = (Prover.prove_compact O p ext).challenge := by
    rw [verifyCommitLoop_eq, key, ← ht]
    show O.chal _ "chal" = p.challengeOf O ext
    unfold Prover.challengeOf Prover.proveState
    rw [commitLoop_eq]
  simp only [Verifier.verify_compact, hcond, if_pos]

/-- A concrete DLEQ-shaped operation list over `F = G = ℤ`, mirroring the
`create_and_verify_compact_dleq` test: one secret `x = 3`, bases `B = 2`
and `H = 5`, instance points `A = x·B = 6` and `G = x·H = 15`, and the two
constraints `A = x·B`, `G = x·H`. -/
def exOps : List (CSOp ℤ ℤ) :=
  [CSOp.allocScalar "x" 3, CSOp.allocPoint "B" 2, CSOp.allocPoint "H" 5,
   CSOp.allocPoint "A" 6, CSOp.allocPoint "G" 15,
   CSOp.addConstraint ⟨2⟩ [(⟨0⟩, ⟨0⟩)], CSOp.addConstraint ⟨3⟩ [(⟨0⟩, ⟨1⟩)]]

/-- The prover state of the concrete DLEQ-shaped example. -/
def exProver : Prover ℤ ℤ :=
  Prover.runOps (Prover.new "DLEQProof" [Entry.domainSep "DLEQTest"]) exOps

/-- C1 witness: on the concrete honest DLEQ-shaped instance, the compact
round trip accepts. -/
theorem C1_compact_round_trip_completeness_witness :
    Verifier.verify_compact intOracle
      (Verifier.runOps (Verifier.new "DLEQProof" [Entry.domainSep "DLEQTest"])
        exOps)
      (Prover.prove_compact intOracle
        (Prover.runOps (Prover.new "DLEQProof" [Entry.domainSep "DLEQTest"])
          exOps) []) = Except.ok () :=
  C1_compact_round_trip_completeness intOracle "DLEQProof"
    [Entry.domainSep "DLEQTest"] exOps [] (by decide)

/-- C2 witness: on the concrete example prover, the first response equals
the first blinding plus the challenge times the first witness scalar. -/
theorem C2_response_computation_witness :
    (Prover.prove_impl intOracle exProver []).2.1.getD 0 0 =
      (Prover.blindingsOf intOracle exProver []).getD 0 0 +
        Prover.challengeOf intOracle exProver [] *
          exProver.scalars.getD 0 0 :=
  (C2_response_computation intOracle exProver []).2 0 (by decide)

/-- C4 witness: the concrete example prover's RNG carries exactly the
transcript, the witness rekeys in allocation order and the external
entropy, and a rerun over the same inputs reproduces the proof. -/
theorem C4_deterministic_nonces_witness :
    Prover.proverRng intOracle exProver [] =
      ⟨⟨exProver.transcript,
        exProver.scalars.map (fun x => ("", intOracle.toBytes x))⟩, []⟩ ∧
    Prover.prove_compact intOracle exProver [] =
      Prover.prove_compact intOracle exProver [] :=
  ⟨(C4_deterministic_nonces intOracle exProver exProver [] []).1,
   (C4_deterministic_nonces intOracle exProver exProver [] []).2.2
     rfl rfl rfl rfl rfl rfl⟩

/-- C8 (amended): variable handles are dense indices starting at 0 — an
`allocate_scalar` call returns the current scalar count as its index and an
`allocate_point` call returns the current point count together with the
same point that was passed in — the order of `allocate_scalar` calls
determines the response order, and the order of `constrain` calls (not of
`allocate_point` calls) determines the commitment order in the emitted
proof. -/
theorem C8_allocation_order {F G : Type} [CommRing F] [AddCommGroup G]
    [Module F G] (O : Oracle F G) (s : Prover F G) (label : String) (x : F)
    (q : G) (ext : List Nat) :
    (s.allocate_scalar label x).1 = ⟨s.scalars.length⟩ ∧
    ((s.allocate_scalar label x).2).scalars = s.scalars ++ [x] ∧
    (s.allocate_point label q).1 = (⟨s.points.length⟩, q) ∧
    ((s.allocate_point label q).2).points = s.points ++ [q] ∧
    (∀ i, i < s.scalars.length →
      (s.responsesOf O ext).getD i 0 =
        (s.blindingsOf O ext).getD i 0 +
          s.scalars.getD i 0 * s.challengeOf O ext) ∧
    (s.proveState O ext).2 =
      s.constraints.map
        (fun c => commitmentFor s.points (s.blindingsOf O ext) c.2) := by
  refine ⟨rfl, rfl, rfl, rfl, fun i _ => responsesOf_getD O s ext i, ?_⟩
  unfold Prover.proveState
  rw [commitLoop_eq]
  simp

/-- C8 witness: the concrete example prover satisfies the response-order
identity at index 0. -/
theorem C8_allocation_order_witness :
    (Prover.responsesOf intOracle exProver []).getD 0 0 =
      (Prover.blindingsOf intOracle exProver []).getD 0 0 +
        exProver.scalars.getD 0 0 * Prover.challengeOf intOracle exProver [] :=
  (C8_allocation_order intOracle exProver "x" 0 0 []).2.2.2.2.1 0 (by decide)

/-- Allocation calls shared by the two C8 counterexample provers: one
secret and two labeled points, allocated in the same order with the same
values. -/
def cexAllocOps : List (CSOp ℤ ℤ) :=
  [CSOp.allocScalar "x" 5, CSOp.allocPoint "P" 2, CSOp.allocPoint "Q" 3]

/-- First C8 counterexample prover: constrains point 0 first, point 1
second. -/
def cexProverA : Prover ℤ ℤ :=
  Prover.runOps (Prover.new "L" [])
    (cexAllocOps ++ [CSOp.addConstraint ⟨0⟩ [(⟨0⟩, ⟨0⟩)],
                     CSOp.addConstraint ⟨1⟩ [(⟨0⟩, ⟨1⟩)]])

/-- Second C8 counterexample prover: identical allocation calls, but the
two `constrain` calls are swapped. -/
def cexProverB : Prover ℤ ℤ :=
  Prover.runOps (Prover.new "L" [])
    (cexAllocOps ++ [CSOp.addConstraint ⟨1⟩ [(⟨0⟩, ⟨1⟩)],
                     CSOp.addConstraint ⟨0⟩ [(⟨0⟩, ⟨0⟩)]])

/-- C8 counterexample: two provers with identical `allocate_scalar` and
`allocate_point` call sequences (same labels, order and values) emit their
commitments in different orders because their `constrain` calls are
ordered differently — so the order of `allocate_point` calls does not
determine the commitment order in the emitted proof. -/
theorem C8_allocation_order_counterexample :
    cexProverA.points = cexProverB.points ∧
    cexProverA.pointLabels = cexProverB.pointLabels ∧
    cexProverA.scalars = cexProverB.scalars ∧
    (Prover.prove_impl intOracle cexProverA []).2.2 ≠
      (Prover.prove_impl intOracle cexProverB []).2.2 := by
  refine ⟨by decide, by decide, by decide, by decide⟩

/-- C9 counterexample: the state reached from a fresh prover by the single
public-API call `constrain(PointVar 0, [])` records a constraint whose rhs
linear combination is empty. -/
theorem C9_nonempty_constraints_counterexample :
    ¬ (∀ c ∈ ((Prover.new "L" ([] : List (Entry ℤ)) : Prover ℤ ℤ).constrain
          ⟨0⟩ []).constraints, c.2 ≠ []) := by
  decide

/-- C9 (amended): `constrain` records exactly the rhs it is given and the
API does not reject an empty one; the non-emptiness invariant holds in
every prover or verifier state reachable through the public API precisely
when every `constrain` call of the run passes a non-empty rhs. -/
theorem C9_nonempty_constraints {F G : Type} (L : String)
    (t0 : List (Entry G)) (ops : List (CSOp F G))
    (h : ∀ lhs rhs, CSOp.addConstraint lhs rhs ∈ ops → rhs ≠ []) :
    (∀ c ∈ (Prover.runOps (Prover.new L t0) ops).constraints, c.2 ≠ []) ∧
    (∀ c ∈ (Verifier.runOps (Verifier.new L t0) ops).constraints,
      c.2 ≠ []) :=
  ⟨prover_runOps_constraints_nonempty ops (Prover.new L t0) h
      (by intro c hc; simp [Prover.new] at hc),
   verifier_runOps_constraints_nonempty ops (Verifier.new L t0) h
      (by intro c hc; simp [Verifier.new] at hc)⟩

/-- C9 witness: the DLEQ-shaped run passes only non-empty rhs lists, and
every constraint recorded by its prover is non-empty. -/
theorem C9_nonempty_constraints_witness :
    ((Prover.runOps (Prover.new "DLEQProof" [Entry.domainSep "DLEQTest"])
        exOps).constraints.all (fun c => !c.2.isEmpty)) = true := by
  have h := (C9_nonempty_constraints "DLEQProof" [Entry.domainSep "DLEQTest"]
    exOps
    (by
      intro lhs rhs hmem
      simp only [exOps, List.mem_cons, List.not_mem_nil, or_false] at hmem
      rcases hmem with hx | hx | hx | hx | hx | hx | hx <;> simp_all)).1
  refine List.all_eq_true.mpr ?_
  intro c hc
  have hne := h c hc
  simpa [List.isEmpty_iff] using hne

/-- C6: wide challenge reduction — `rand_scalar` reduces to the scalar
field from a double-width buffer of `2·W_s = 64` bytes (it consumes exactly
the first 64 bytes of the RNG stream and reduces their full little-endian
value), the spec-modelled `get_challenge` does the same from the squeezed
transcript bytes, and the result differs from narrow single-width (32-byte)
reduction: there is a byte stream on which the wide reduction disagrees
with the narrow one. -/
theorem C6_wide_reduction :
    (∀ rng : Nat → Nat,
      rand_scalar rng =
        from_bytes_wide ((List.range (2 * 32)).map rng)) ∧
    (∀ squeeze : Nat → Nat,
      get_challenge squeeze =
        from_bytes_wide ((List.range (2 * 32)).map squeeze)) ∧
    (∃ rng : Nat → Nat,
      rand_scalar rng ≠
        ((leNat ((List.range 32).map rng) : Nat) : ZMod blsR)) := by
  refine ⟨fun rng => rfl, fun squeeze => rfl, ?_⟩
  refine ⟨fun i => if i = 63 then 1 else 0, ?_⟩
  decide

/-- An iff form of in-bounds optional indexing used by the Matrix claim. -/
lemma get?_isSome_iff {T : Type} (l : List T) (n : Nat) :
    (l.get? n).isSome ↔ n < l.length := by
  rw [List.get?_eq_getElem?]
  constructor
  · intro h
    exact (List.getElem?_eq_some.mp
      (Option.isSome_iff_exists.mp h).choose_spec).1
  · intro h
    simp [List.getElem?_eq_getElem h]

/-- C10: Matrix indexing is bounds-checked only on the flattened storage —
for a fresh `rows × cols` matrix, `index (i, j)` reads the flat entry at
`cols·i + j`; when `j ≥ cols` but `cols·i + j` is still below `rows·cols`
the access succeeds (no panic) and lands on the flat position of an entry
`(i2, j2)` of a strictly later row; reads and writes fail (panic) exactly
when `cols·i + j` reaches the end of the `rows·cols` storage. -/
theorem C10_matrix_flat_indexing (T : Type) [Inhabited T]
    (rows cols i j : Nat) (x : T) :
    ((Util.Matrix.new T rows cols).index (i, j) =
      (Util.Matrix.new T rows cols).entries.get? (cols * i + j)) ∧
    (cols ≤ j → cols * i + j < rows * cols →
      (((Util.Matrix.new T rows cols).index (i, j)).isSome ∧
       ∃ i2 j2, i < i2 ∧ j2 < cols ∧ cols * i2 + j2 = cols * i + j)) ∧
    (((Util.Matrix.new T rows cols).index (i, j)).isSome ↔
      cols * i + j < rows * cols) ∧
    (((Util.Matrix.new T rows cols).index_mut (i, j) x).isSome ↔
      cols * i + j < rows * cols) := by
  have hlen : (Util.Matrix.new T rows cols).entries.length = rows * cols := by
    simp [Util.Matrix.new]
  have hidx : ((Util.Matrix.new T rows cols).index (i, j)).isSome ↔
      cols * i + j < rows * cols := by
    rw [Util.Matrix.index, get?_isSome_iff, hlen]
    simp [Util.Matrix.new]
  refine ⟨rfl, ?_, hidx, ?_⟩
  · intro hj hin
    refine ⟨hidx.mpr hin, i + j / cols, j % cols, ?_, ?_, ?_⟩
    · have hcols : 0 < cols := by
        rcases Nat.eq_zero_or_pos cols with h0 | h0
        · rw [h0] at hin
          simp at hin
        · exact h0
      have : 1 ≤ j / cols := (Nat.one_le_div_iff hcols).mpr hj
      omega
    · exact Nat.mod_lt _ (by
        rcases Nat.eq_zero_or_pos cols with h0 | h0
        · rw [h0] at hin
          simp at hin
        · exact h0)
    · rw [Nat.mul_add, Nat.add_assoc, Nat.div_add_mod]
  · rw [Util.Matrix.index_mut, hlen]
    rcases Nat.lt_or_ge (cols * i + j) (rows * cols) with h | h
    · simp [Util.Matrix.new, h]
    · simp [Util.Matrix.new, Nat.not_lt.mpr h]

/-- C10 witness: in a fresh `2 × 3` matrix of integers, the out-of-range
column access `(0, 4)` does not panic — the flat position `4` is inside the
6-entry storage and is the slot of entry `(1, 1)` of the later row — and
both read and write at `(0, 4)` succeed. -/
theorem C10_matrix_flat_indexing_witness :
    ((Util.Matrix.new ℤ 2 3).index (0, 4)).isSome ∧
    (∃ i2 j2, 0 < i2 ∧ j2 < 3 ∧ 3 * i2 + j2 = 3 * 0 + 4) ∧
    (((Util.Matrix.new ℤ 2 3).index_mut (0, 4) 7).isSome ↔
      3 * 0 + 4 < 2 * 3) :=
  ⟨((C10_matrix_flat_indexing ℤ 2 3 0 4 7).2.1 (by decide) (by decide)).1,
   ((C10_matrix_flat_indexing ℤ 2 3 0 4 7).2.1 (by decide) (by decide)).2,
   (C10_matrix_flat_indexing ℤ 2 3 0 4 7).2.2.2⟩

